import Mathlib

/-!
Shallow embedding of the `ts-multi-map` library (`MultiValueMap` from
`src/MultiValueMap.ts`, `MultiKeyMap` from `src/util/MultiKeyMap.ts`) and proofs
about its documented behaviour.

A JavaScript `Map` is modelled as an insertion-ordered association list with
unique keys: `set` updates an existing key in place (keeping its position) or
appends a new entry, `delete` removes the entry, `get` finds it, and iteration
walks the list in order.
-/

section JsMap

variable {K V : Type} [DecidableEq K]

/-- `Map.prototype.get`: the value stored under `key`, if any. -/
def jsGet : List (K × V) → K → Option V
  | [], _ => none
  | (k, v) :: rest, key => if k = key then some v else jsGet rest key

/-- `Map.prototype.set`: update in place when the key is present, else append. -/
def jsSet : List (K × V) → K → V → List (K × V)
  | [], key, val => [(key, val)]
  | (k, v) :: rest, key, val =>
      if k = key then (k, val) :: rest else (k, v) :: jsSet rest key val

/-- `Map.prototype.has`. -/
def jsHas : List (K × V) → K → Bool
  | [], _ => false
  | (k, _) :: rest, key => if k = key then true else jsHas rest key

/-- The removal performed by `Map.prototype.delete` (keys are unique, so
removing the first occurrence is removing the entry). -/
def jsDelete : List (K × V) → K → List (K × V)
  | [], _ => []
  | (k, v) :: rest, key => if k = key then rest else (k, v) :: jsDelete rest key

end JsMap

section Join

/-- `Array.prototype.join(sep)`: elements concatenated with `sep` between them. -/
def joinSep (sep : String) : List String → String
  | [] => ""
  | [s] => s
  | s :: t :: rest => s ++ sep ++ joinSep sep (t :: rest)

end Join

/-- `MultiValueMap<K, V>` (src/MultiValueMap.ts): a single key mapped to a list
of values, backed by one JavaScript `Map`. -/
structure MultiValueMap (K V : Type) where
  map : List (K × List V)

namespace MultiValueMap

variable {K V : Type} [DecidableEq K] [DecidableEq V]

/-- `get(key)`. -/
def get (m : MultiValueMap K V) (key : K) : Option (List V) :=
  jsGet m.map key

/-- `set(key, values)`. -/
def set (m : MultiValueMap K V) (key : K) (values : List V) : MultiValueMap K V :=
  ⟨jsSet m.map key values⟩

/-- `push(key, values)`: append to the existing list (empty if absent). -/
def push (m : MultiValueMap K V) (key : K) (values : List V) : MultiValueMap K V :=
  ⟨jsSet m.map key (((m.get key).getD []) ++ values)⟩

/-- `clear()`. -/
def clear (_ : MultiValueMap K V) : MultiValueMap K V := ⟨[]⟩

/-- `keys()`. -/
def keys (m : MultiValueMap K V) : List K := m.map.map Prod.fst

/-- `values()`. -/
def values (m : MultiValueMap K V) : List (List V) := m.map.map Prod.snd

/-- `entries()`. -/
def entries (m : MultiValueMap K V) : List (K × List V) := m.map

/-- `size`. -/
def size (m : MultiValueMap K V) : Nat := m.map.length

/-- `isEmpty()`. -/
def isEmpty (m : MultiValueMap K V) : Bool := m.map.length == 0

/-- `hasKey(key)`. -/
def hasKey (m : MultiValueMap K V) (key : K) : Bool := jsHas m.map key

/-- `deleteByKey(key)`: the boolean is `Map.prototype.delete`'s return value
(whether the key was present). -/
def deleteByKey (m : MultiValueMap K V) (key : K) : Bool × MultiValueMap K V :=
  (jsHas m.map key, ⟨jsDelete m.map key⟩)

/-- `deleteByKeys(...keys)`.  The source accumulates with
`result = result || this.map.delete(key)`, so once `result` is `true` the
right-hand side — the delete itself — is no longer evaluated. -/
def deleteByKeys (m : MultiValueMap K V) (ks : List K) : Bool × MultiValueMap K V :=
  if ks.isEmpty || m.map.isEmpty then (false, m)
  else
    ks.foldl
      (fun acc key =>
        if acc.1 then acc
        else (jsHas acc.2.map key, ⟨jsDelete acc.2.map key⟩))
      (false, m)

/-- `deleteByValue(value)`: iterates a snapshot of `entries()`, and for each
entry whose list contains `value` runs `result = result || this.map.delete(key)`
— again short-circuiting the delete once `result` is `true`. -/
def deleteByValue (m : MultiValueMap K V) (value : V) : Bool × MultiValueMap K V :=
  if m.map.isEmpty then (false, m)
  else
    m.entries.foldl
      (fun acc e =>
        if e.2.contains value then
          if acc.1 then acc
          else (jsHas acc.2.map e.1, ⟨jsDelete acc.2.map e.1⟩)
        else acc)
      (false, m)

/-- `deleteByValues(...values)`: `result = result || this.deleteByValue(value)`,
so `deleteByValue` stops being invoked once `result` is `true`. -/
def deleteByValues (m : MultiValueMap K V) (vs : List V) : Bool × MultiValueMap K V :=
  if vs.isEmpty || m.map.isEmpty then (false, m)
  else
    vs.foldl
      (fun acc v => if acc.1 then acc else acc.2.deleteByValue v)
      (false, m)

/-- `hasAnyKeys(...keys)`. -/
def hasAnyKeys (m : MultiValueMap K V) (ks : List K) : Bool :=
  if ks.isEmpty || m.map.isEmpty then false
  else ks.any (fun k => m.hasKey k)

/-- `hasAllKeys(...keys)`. -/
def hasAllKeys (m : MultiValueMap K V) (ks : List K) : Bool :=
  if ks.isEmpty || m.map.isEmpty then false
  else ks.all (fun k => m.hasKey k)

/-- The inner loop of `hasValue`: the conjunction over the candidate elements of
`array.includes(v) && (exact ? array.length === values.length : true)`
(the loop breaks as soon as the conjunction turns false). -/
def storedMatches (array : List V) (vs : List V) (exact : Bool) : Bool :=
  vs.all (fun v => array.contains v && (if exact then array.length == vs.length else true))

/-- `hasValue(values, exact = true)`: scans the stored lists for one matching
the candidate, returning on the first match. -/
def hasValue (m : MultiValueMap K V) (vs : List V) (exact : Bool) : Bool :=
  if vs.isEmpty || m.map.isEmpty then false
  else m.values.any (fun array => storedMatches array vs exact)

/-- `forEachBreakable(callback)`: the source is
`this.map.forEach((values, key) => { if (!callback(values, key, this)) return; })`.
`Array/Map.prototype.forEach` cannot be broken out of: the `return` only leaves
the closure for the current entry, so the callback's boolean is discarded and
every entry is visited.  The callback is embedded as a state transformer
returning its state plus the discarded boolean. -/
def forEachBreakable {σ : Type} (m : MultiValueMap K V)
    (cb : σ → List V → K → σ × Bool) (init : σ) : σ :=
  m.map.foldl (fun st e => (cb st e.2 e.1).1) init

/-- Constructor from entries: `entries?.forEach(([key, values]) => this.set(key, values))`. -/
def ofEntries (es : List (K × List V)) : MultiValueMap K V :=
  es.foldl (fun m e => m.set e.1 e.2) ⟨[]⟩

/-- Modelled from the spec: `MultiValueMap.hasAnyValues` is not present in the
sources (only the read-only facade and the tests call it).  §4.1: "apply
`hasValue(..., exact=true)` across multiple candidate sequences, short-circuiting
on first true" — the any-fold of `hasValue` over the candidate sequences, which
is false when no candidate sequence is supplied. -/
def hasAnyValues (m : MultiValueMap K V) (vss : List (List V)) : Bool :=
  vss.any (fun vs => m.hasValue vs true)

/-- Modelled from the spec: `MultiValueMap.hasAllValues` is not present in the
sources (only the read-only facade and the tests call it).  §4.1: "apply
`hasValue(..., exact=true)` across multiple candidate sequences, short-circuiting
on first false" — the all-fold of `hasValue` over the candidate sequences, which
is vacuously true when no candidate sequence is supplied. -/
def hasAllValues (m : MultiValueMap K V) (vss : List (List V)) : Bool :=
  vss.all (fun vs => m.hasValue vs true)

end MultiValueMap

/-- The external structural hasher (`object-hash`): the spec (§2, §6) requires a
deterministic identifier such that two key-part sequences get the same surrogate
iff they are structurally equal, with collisions out of scope (§7).  The
identity on key-part sequences realises exactly that contract, so the surrogate
type is the key-part sequence itself. -/
def objectHash {K : Type} (keys : List K) : List K := keys

/-- `MultiKeyMap<K, V>` (src/util/MultiKeyMap.ts): an ordered sequence of key
parts mapped to one value, backed by a `MultiValueMap<surrogate, K>` holding the
original key parts and a plain `Map<surrogate, V>` holding the values. -/
structure MultiKeyMap (K V : Type) where
  keysMap : MultiValueMap (List K) K
  valueMap : List (List K × V)

namespace MultiKeyMap

variable {K V : Type} [DecidableEq K] [DecidableEq V]

/-- The empty map (`new MultiKeyMap()`). -/
def emptyMap : MultiKeyMap K V := ⟨⟨[]⟩, []⟩

/-- `get(keys)`: absent for an empty key-part sequence, else a value-map lookup
at the surrogate. -/
def get (m : MultiKeyMap K V) (ks : List K) : Option V :=
  if ks.isEmpty then none
  else jsGet m.valueMap (objectHash ks)

/-- `set(keys, value)`: a no-op for an empty key-part sequence, else the
surrogate is computed once and the key-part copy and the value are stored in
the two internal maps under it. -/
def set (m : MultiKeyMap K V) (ks : List K) (v : V) : MultiKeyMap K V :=
  if ks.isEmpty then m
  else
    { keysMap := m.keysMap.set (objectHash ks) ks
      valueMap := jsSet m.valueMap (objectHash ks) v }

/-- `clear()`. -/
def clear (_ : MultiKeyMap K V) : MultiKeyMap K V := emptyMap

/-- `keys()`. -/
def keys (m : MultiKeyMap K V) : List (List K) := m.keysMap.values

/-- `values()`. -/
def values (m : MultiKeyMap K V) : List V := m.valueMap.map Prod.snd

/-- `entries()`: walks the value map and re-resolves the key parts from the
key-parts store, defaulting to an empty sequence (`this.keysMap.get(k) || []`). -/
def entries (m : MultiKeyMap K V) : List (List K × V) :=
  m.valueMap.map (fun e => ((m.keysMap.get e.1).getD [], e.2))

/-- `size`. -/
def size (m : MultiKeyMap K V) : Nat := m.valueMap.length

/-- `isEmpty()`. -/
def isEmpty (m : MultiKeyMap K V) : Bool := m.valueMap.length == 0

/-- `deleteByKey(...keys)`: `false` for no key parts or an absent surrogate,
else deletes from both internal maps and returns `true`. -/
def deleteByKey (m : MultiKeyMap K V) (ks : List K) : Bool × MultiKeyMap K V :=
  if ks.isEmpty then (false, m)
  else if jsHas m.valueMap (objectHash ks) then
    (true,
      { keysMap := (m.keysMap.deleteByKey (objectHash ks)).2
        valueMap := jsDelete m.valueMap (objectHash ks) })
  else (false, m)

/-- `deleteByValue(value)`: scans the value-map entries and, for each entry
whose value strictly equals the target, deletes the surrogate from both
internal maps (no short-circuit here: `result = true` is a plain assignment). -/
def deleteByValue (m : MultiKeyMap K V) (v : V) : Bool × MultiKeyMap K V :=
  if m.valueMap.isEmpty then (false, m)
  else
    m.valueMap.foldl
      (fun acc e =>
        if e.2 = v then
          (true,
            { keysMap := (acc.2.keysMap.deleteByKey e.1).2
              valueMap := jsDelete acc.2.valueMap e.1 })
        else acc)
      (false, m)

/-- `deleteByValues(...values)`: `result = result || this.deleteByValue(value)`,
so `deleteByValue` stops being invoked once `result` is `true`. -/
def deleteByValues (m : MultiKeyMap K V) (vs : List V) : Bool × MultiKeyMap K V :=
  if vs.isEmpty || m.valueMap.isEmpty then (false, m)
  else
    vs.foldl
      (fun acc v => if acc.1 then acc else acc.2.deleteByValue v)
      (false, m)

/-- `hasKey(keys)`: `keys?.length > 0 && this.keysMap.hasValue(keys)` — a scan
of the stored key-part lists with `hasValue`'s default `exact = true` match. -/
def hasKey (m : MultiKeyMap K V) (ks : List K) : Bool :=
  !ks.isEmpty && m.keysMap.hasValue ks true

/-- `hasAnyKeys(...keys)`. -/
def hasAnyKeys (m : MultiKeyMap K V) (kss : List (List K)) : Bool :=
  if kss.isEmpty || m.keysMap.map.isEmpty then false
  else kss.any (fun ks => m.hasKey ks)

/-- `hasAllKeys(...keys)`. -/
def hasAllKeys (m : MultiKeyMap K V) (kss : List (List K)) : Bool :=
  if kss.isEmpty || m.keysMap.map.isEmpty then false
  else kss.all (fun ks => m.hasKey ks)

/-- `hasValue(value)`: `this.values().includes(value)`. -/
def hasValue (m : MultiKeyMap K V) (v : V) : Bool :=
  m.values.contains v

/-- `hasAnyValues(...values)`. -/
def hasAnyValues (m : MultiKeyMap K V) (vs : List V) : Bool :=
  if vs.isEmpty || m.valueMap.isEmpty then false
  else vs.any (fun v => m.hasValue v)

/-- `hasAllValues(...values)`. -/
def hasAllValues (m : MultiKeyMap K V) (vs : List V) : Bool :=
  if vs.isEmpty || m.valueMap.isEmpty then false
  else vs.all (fun v => m.hasValue v)

/-- `forEachBreakable(callback)`: iterates the `entries()` snapshot with
`Array.prototype.forEach`, which cannot be broken out of — the callback's
boolean is discarded (`return` only leaves the closure for the current entry)
and every entry is visited.  The callback is embedded as a state transformer
returning its state plus the discarded boolean. -/
def forEachBreakable {σ : Type} (m : MultiKeyMap K V)
    (cb : σ → V → List K → σ × Bool) (init : σ) : σ :=
  m.entries.foldl (fun st e => (cb st e.2 e.1).1) init

/-- Constructor from entries (also `MultiKeyMap.of`):
`entries?.forEach(([keys, value]) => this.set(keys, value))`. -/
def ofEntries (es : List (List K × V)) : MultiKeyMap K V :=
  es.foldl (fun m e => m.set e.1 e.2) emptyMap

/-- `toString()`: each entry `[keys, value]` is destructured in the source as
`[entry.slice(0, -1), entry[entry.length - 1]]`, i.e. as `[[keys], value]`, and
`[keys].join()` stringifies the singleton array by stringifying the inner
array, which joins the key parts with `","` — so each entry renders as the key
parts joined by `","` in square brackets, then `":"` and the value, entries
joined by `";"`. -/
def toString (m : MultiKeyMap String String) : String :=
  joinSep ";" (m.entries.map (fun e => "[" ++ joinSep "," e.1 ++ "]:" ++ e.2))

end MultiKeyMap

section KeyListDefs

variable {K V : Type} [DecidableEq K]

/-- The key list of an association list. -/
def keysOf (l : List (K × V)) : List K := l.map Prod.fst

/-- The effect of `jsSet` on the key list. -/
def insKey : List K → K → List K
  | [], key => [key]
  | k :: rest, key => if k = key then k :: rest else k :: insKey rest key

/-- The effect of `jsDelete` on the key list. -/
def eraseKey : List K → K → List K
  | [], _ => []
  | k :: rest, key => if k = key then rest else k :: eraseKey rest key

/-- The effect of `jsHas` on the key list. -/
def hasKeyList : List K → K → Bool
  | [], _ => false
  | k :: rest, key => if k = key then true else hasKeyList rest key

end KeyListDefs

/-- The two-map synchronization invariant of `MultiKeyMap`: the internal
key-parts store and the internal value store hold the same surrogate keys, in
the same insertion order. -/
def MultiKeyMap.Sync {K V : Type} [DecidableEq K] (m : MultiKeyMap K V) : Prop :=
  keysOf m.keysMap.map = keysOf m.valueMap

/-- The states reachable from the empty map by the public operations of
`MultiKeyMap` (constructor-from-entries, `set`, `deleteByKey`, `deleteByValue`,
`deleteByValues`, `clear`). -/
inductive MultiKeyMap.Reachable {K V : Type} [DecidableEq K] [DecidableEq V] :
    MultiKeyMap K V → Prop
  | protected empty : Reachable MultiKeyMap.emptyMap
  | protected ofEntries (es : List (List K × V)) : Reachable (MultiKeyMap.ofEntries es)
  | protected set (m : MultiKeyMap K V) (ks : List K) (v : V) :
      Reachable m → Reachable (m.set ks v)
  | protected deleteByKey (m : MultiKeyMap K V) (ks : List K) :
      Reachable m → Reachable (m.deleteByKey ks).2
  | protected deleteByValue (m : MultiKeyMap K V) (v : V) :
      Reachable m → Reachable (m.deleteByValue v).2
  | protected deleteByValues (m : MultiKeyMap K V) (vs : List V) :
      Reachable m → Reachable (m.deleteByValues vs).2
  | protected clear (m : MultiKeyMap K V) : Reachable m → Reachable m.clear

section JsMapLemmas

variable {K V : Type} [DecidableEq K]

theorem jsGet_jsSet_self (l : List (K × V)) (key : K) (v : V) :
    jsGet (jsSet l key v) key = some v := by
  induction l with
  | nil => simp [jsSet, jsGet]
  | cons hd tl ih =>
      obtain ⟨k, w⟩ := hd
      by_cases hk : k = key
      · simp [jsSet, jsGet, hk]
      · simp [jsSet, jsGet, hk, ih]

theorem keysOf_jsSet (l : List (K × V)) (key : K) (v : V) :
    keysOf (jsSet l key v) = insKey (keysOf l) key := by
  induction l with
  | nil => simp [jsSet, keysOf, insKey]
  | cons hd tl ih =>
      obtain ⟨k, w⟩ := hd
      by_cases hk : k = key
      · simp [jsSet, keysOf, insKey, hk]
      · simpa [jsSet, keysOf, insKey, hk] using ih

theorem keysOf_jsDelete (l : List (K × V)) (key : K) :
    keysOf (jsDelete l key) = eraseKey (keysOf l) key := by
  induction l with
  | nil => simp [jsDelete, keysOf, eraseKey]
  | cons hd tl ih =>
      obtain ⟨k, w⟩ := hd
      by_cases hk : k = key
      · simp [jsDelete, keysOf, eraseKey, hk]
      · simpa [jsDelete, keysOf, eraseKey, hk] using ih

theorem jsHas_eq_hasKeyList (l : List (K × V)) (key : K) :
    jsHas l key = hasKeyList (keysOf l) key := by
  induction l with
  | nil => simp [jsHas, keysOf, hasKeyList]
  | cons hd tl ih =>
      obtain ⟨k, w⟩ := hd
      by_cases hk : k = key
      · simp [jsHas, keysOf, hasKeyList, hk]
      · simpa [jsHas, keysOf, hasKeyList, hk] using ih

theorem hasKeyList_iff_mem (l : List K) (key : K) :
    hasKeyList l key = true ↔ key ∈ l := by
  induction l with
  | nil => simp [hasKeyList]
  | cons k rest ih =>
      by_cases hk : k = key
      · simp [hasKeyList, hk]
      · have hk' : ¬key = k := fun h => hk h.symm
        simp [hasKeyList, hk, ih, hk']

end JsMapLemmas

namespace MultiKeyMap

variable {K V : Type} [DecidableEq K] [DecidableEq V]

theorem sync_emptyMap : (emptyMap : MultiKeyMap K V).Sync := rfl

theorem sync_delete_pair {m : MultiKeyMap K V} (h : m.Sync) (s : List K) :
    Sync { keysMap := (m.keysMap.deleteByKey s).2, valueMap := jsDelete m.valueMap s } := by
  show keysOf (jsDelete m.keysMap.map s) = keysOf (jsDelete m.valueMap s)
  rw [keysOf_jsDelete, keysOf_jsDelete, h]

theorem sync_set {m : MultiKeyMap K V} (h : m.Sync) (ks : List K) (v : V) :
    (m.set ks v).Sync := by
  unfold set
  cases hks : ks.isEmpty
  · show keysOf (jsSet m.keysMap.map (objectHash ks) ks)
      = keysOf (jsSet m.valueMap (objectHash ks) v)
    rw [keysOf_jsSet, keysOf_jsSet, h]
  · simpa [hks] using h

theorem sync_deleteByKey {m : MultiKeyMap K V} (h : m.Sync) (ks : List K) :
    (m.deleteByKey ks).2.Sync := by
  unfold deleteByKey
  cases hks : ks.isEmpty
  · cases hhas : jsHas m.valueMap (objectHash ks)
    · simpa [hks, hhas] using h
    · simpa [hks, hhas] using sync_delete_pair h (objectHash ks)
  · simpa [hks] using h

theorem sync_deleteByValue_fold (v : V) (l : List (List K × V)) :
    ∀ acc : Bool × MultiKeyMap K V, acc.2.Sync →
      (List.foldl
        (fun acc e =>
          if e.2 = v then
            (true,
              { keysMap := (acc.2.keysMap.deleteByKey e.1).2
                valueMap := jsDelete acc.2.valueMap e.1 })
          else acc)
        acc l).2.Sync := by
  induction l with
  | nil => intro acc h; exact h
  | cons e rest ih =>
      intro acc h
      rw [List.foldl_cons]
      apply ih
      by_cases he : e.2 = v
      · simpa [he] using sync_delete_pair h e.1
      · simpa [he] using h

theorem sync_deleteByValue {m : MultiKeyMap K V} (h : m.Sync) (v : V) :
    (m.deleteByValue v).2.Sync := by
  unfold deleteByValue
  cases hv : m.valueMap.isEmpty
  · simpa [hv] using sync_deleteByValue_fold v m.valueMap (false, m) h
  · simpa [hv] using h

theorem sync_deleteByValues_fold (l : List V) :
    ∀ acc : Bool × MultiKeyMap K V, acc.2.Sync →
      (List.foldl (fun acc v => if acc.1 then acc else acc.2.deleteByValue v) acc l).2.Sync := by
  induction l with
  | nil => intro acc h; exact h
  | cons v rest ih =>
      intro acc h
      rw [List.foldl_cons]
      apply ih
      cases hb : acc.1
      · simpa [hb] using sync_deleteByValue h v
      · simpa [hb] using h

theorem sync_deleteByValues {m : MultiKeyMap K V} (h : m.Sync) (vs : List V) :
    (m.deleteByValues vs).2.Sync := by
  unfold deleteByValues
  cases hv : vs.isEmpty || m.valueMap.isEmpty
  · simpa [hv] using sync_deleteByValues_fold vs (false, m) h
  · simpa [hv] using h

theorem sync_clear (m : MultiKeyMap K V) : m.clear.Sync := rfl

theorem sync_ofEntries_fold (es : List (List K × V)) :
    ∀ m : MultiKeyMap K V, m.Sync → (es.foldl (fun m e => m.set e.1 e.2) m).Sync := by
  induction es with
  | nil => intro m h; exact h
  | cons e rest ih =>
      intro m h
      rw [List.foldl_cons]
      exact ih _ (sync_set h e.1 e.2)

theorem sync_ofEntries (es : List (List K × V)) : (ofEntries es : MultiKeyMap K V).Sync :=
  sync_ofEntries_fold es emptyMap sync_emptyMap

theorem sync_of_reachable {m : MultiKeyMap K V} (h : Reachable m) : m.Sync := by
  induction h with
  | empty => exact sync_emptyMap
  | ofEntries es => exact sync_ofEntries es
  | set m ks v _ ih => exact sync_set ih ks v
  | deleteByKey m ks _ ih => exact sync_deleteByKey ih ks
  | deleteByValue m v _ ih => exact sync_deleteByValue ih v
  | deleteByValues m vs _ ih => exact sync_deleteByValues ih vs
  | clear m _ => exact sync_clear m

end MultiKeyMap

namespace MultiValueMap

variable {K V : Type} [DecidableEq K] [DecidableEq V]

theorem values_eq_nil (m : MultiValueMap K V) (h : m.map = []) : m.values = [] := by
  simp [values, h]

theorem hasValue_exact_iff (m : MultiValueMap K V) (vs : List V) (h : vs ≠ []) :
    m.hasValue vs true = true ↔
      ∃ arr ∈ m.values, (∀ v ∈ vs, v ∈ arr) ∧ arr.length = vs.length := by
  obtain ⟨v₀, rest, rfl⟩ := List.exists_cons_of_ne_nil h
  cases hm : m.map.isEmpty with
  | true =>
      have hnil : m.map = [] := by simpa using hm
      simp [hasValue, hm, values_eq_nil m hnil]
  | false =>
      unfold hasValue
      rw [if_neg (by simp [hm])]
      rw [List.any_eq_true]
      constructor
      · rintro ⟨arr, harr, hall⟩
        rw [storedMatches, List.all_eq_true] at hall
        refine ⟨arr, harr, fun v hv => ?_, ?_⟩
        · have hv' := hall v hv
          simp only [Bool.and_eq_true] at hv'
          simpa using hv'.1
        · have hv' := hall v₀ (by simp)
          simp only [Bool.and_eq_true] at hv'
          simpa using hv'.2
      · rintro ⟨arr, harr, hall, hlen⟩
        refine ⟨arr, harr, ?_⟩
        rw [storedMatches, List.all_eq_true]
        intro v hv
        simp [hall v hv, hlen]

theorem hasValue_subset_iff (m : MultiValueMap K V) (vs : List V) (h : vs ≠ []) :
    m.hasValue vs false = true ↔ ∃ arr ∈ m.values, ∀ v ∈ vs, v ∈ arr := by
  obtain ⟨v₀, rest, rfl⟩ := List.exists_cons_of_ne_nil h
  cases hm : m.map.isEmpty with
  | true =>
      have hnil : m.map = [] := by simpa using hm
      simp [hasValue, hm, values_eq_nil m hnil]
  | false =>
      simp [hasValue, hm, storedMatches, List.any_eq_true, List.all_eq_true]

end MultiValueMap

section FoldLog

theorem foldl_snoc {γ δ : Type} (h : γ → δ) :
    ∀ (l : List γ) (init : List δ),
      List.foldl (fun st e => st ++ [h e]) init l = init ++ l.map h := by
  intro l
  induction l with
  | nil => intro init; simp
  | cons e rest ih => intro init; simp [ih]

end FoldLog

/-- C1: in every state reachable from the empty map by the public operations of
`MultiKeyMap` (constructor-from-entries, `set`, `deleteByKey`, `deleteByValue`,
`deleteByValues`, `clear`), the internal key-parts store and the internal value
store contain exactly the same surrogate keys, and their entry counts are
equal. -/
theorem mkm_two_map_sync {K V : Type} [DecidableEq K] [DecidableEq V]
    (m : MultiKeyMap K V) (h : MultiKeyMap.Reachable m) :
    (∀ s : List K, jsHas m.keysMap.map s = jsHas m.valueMap s) ∧
      m.keysMap.size = m.size := by
  have hs := MultiKeyMap.sync_of_reachable h
  constructor
  · intro s
    rw [jsHas_eq_hasKeyList, jsHas_eq_hasKeyList, hs]
  · have hlen := congrArg List.length hs
    simpa [MultiValueMap.size, MultiKeyMap.size, keysOf] using hlen

/-- Witness for `mkm_two_map_sync`: a concrete state reached by a constructor
call followed by a `set`. -/
theorem mkm_two_map_sync_witness :
    jsHas ((MultiKeyMap.ofEntries [([0], 1), ([2, 3], 4)] : MultiKeyMap Nat Nat).set [5] 6).keysMap.map [5]
        = jsHas ((MultiKeyMap.ofEntries [([0], 1), ([2, 3], 4)] : MultiKeyMap Nat Nat).set [5] 6).valueMap [5]
      ∧ ((MultiKeyMap.ofEntries [([0], 1), ([2, 3], 4)] : MultiKeyMap Nat Nat).set [5] 6).keysMap.size
        = ((MultiKeyMap.ofEntries [([0], 1), ([2, 3], 4)] : MultiKeyMap Nat Nat).set [5] 6).size :=
  ⟨(mkm_two_map_sync _
      (MultiKeyMap.Reachable.set _ _ _ (MultiKeyMap.Reachable.ofEntries _))).1 [5],
   (mkm_two_map_sync _
      (MultiKeyMap.Reachable.set _ _ _ (MultiKeyMap.Reachable.ofEntries _))).2⟩

/-- C2: for every map state, non-empty key-part sequence `k` and value `v`,
after `set(k, v)` the call `get(k)` returns `v`, and `get(k')` returns `v` for
every key-part sequence with the same surrogate — with the structural hasher,
exactly the sequences structurally equal to `k`. -/
theorem mkm_set_get_roundtrip {K V : Type} [DecidableEq K] [DecidableEq V]
    (m : MultiKeyMap K V) (ks : List K) (v : V) (h : ks ≠ []) :
    (m.set ks v).get ks = some v ∧
      ∀ ks' : List K, objectHash ks' = objectHash ks → (m.set ks v).get ks' = some v := by
  have hemp : ks.isEmpty = false := by
    cases ks with
    | nil => exact absurd rfl h
    | cons a l => rfl
  have main : ∀ ks' : List K, objectHash ks' = objectHash ks →
      (m.set ks v).get ks' = some v := by
    intro ks' hh
    have hks : ks' = ks := hh
    subst hks
    simp [MultiKeyMap.set, MultiKeyMap.get, hemp, objectHash, jsGet_jsSet_self]
  exact ⟨main ks rfl, main⟩

/-- Witness for `mkm_set_get_roundtrip` at a concrete map, key and value. -/
theorem mkm_set_get_roundtrip_witness :
    ((MultiKeyMap.emptyMap : MultiKeyMap Nat Nat).set [0, 1] 7).get [0, 1] = some 7 :=
  (mkm_set_get_roundtrip _ [0, 1] 7 (by decide)).1

/-- C3: `MultiValueMap.deleteByValue` evaluated at a failing input.  With two
entries whose lists both contain 5, the claim says both entries are removed;
the code's `result = result || this.map.delete(key)` short-circuits after the
first removal, so the call returns true but entry 2 survives. -/
theorem mvm_deleteByValue_short_circuit :
    ((MultiValueMap.ofEntries [(1, [5]), (2, [5])] : MultiValueMap Nat Nat).deleteByValue 5).1 = true
      ∧ ((MultiValueMap.ofEntries [(1, [5]), (2, [5])] : MultiValueMap Nat Nat).deleteByValue 5).2.map
          = [(2, [5])] := by
  decide

/-- C4: `MultiValueMap.deleteByKeys` evaluated at a failing input.  With keys 1
and 2 both present, the claim says neither remains after `deleteByKeys(1, 2)`;
the code's `result = result || this.map.delete(key)` short-circuits after the
first removal, so the call returns true but key 2 survives. -/
theorem mvm_deleteByKeys_short_circuit :
    ((MultiValueMap.ofEntries [(1, [0]), (2, [0])] : MultiValueMap Nat Nat).deleteByKeys [1, 2]).1 = true
      ∧ ((MultiValueMap.ofEntries [(1, [0]), (2, [0])] : MultiValueMap Nat Nat).deleteByKeys [1, 2]).2.map
          = [(2, [0])] := by
  decide

/-- C7: for every `MultiKeyMap` state and value, `get([])` is absent without
throwing, `set([], v)` leaves the state unchanged, and `deleteByKey` with zero
key parts returns false and leaves the state unchanged. -/
theorem mkm_empty_keyparts {K V : Type} [DecidableEq K] [DecidableEq V]
    (m : MultiKeyMap K V) (v : V) :
    m.get [] = none ∧ m.set [] v = m ∧ m.deleteByKey [] = (false, m) :=
  ⟨rfl, rfl, rfl⟩

/-- Witness for `mkm_empty_keyparts` at a concrete map and value. -/
theorem mkm_empty_keyparts_witness :
    (MultiKeyMap.ofEntries [([1], 2)] : MultiKeyMap Nat Nat).get [] = none
      ∧ (MultiKeyMap.ofEntries [([1], 2)] : MultiKeyMap Nat Nat).set [] 9
          = MultiKeyMap.ofEntries [([1], 2)]
      ∧ (MultiKeyMap.ofEntries [([1], 2)] : MultiKeyMap Nat Nat).deleteByKey []
          = (false, MultiKeyMap.ofEntries [([1], 2)]) :=
  mkm_empty_keyparts _ 9

/-- C5 counterexample: with only the key-part sequence `[0, 1]` registered,
`hasKey([1, 0])` returns true although no registered sequence is structurally
(order-sensitively) equal to `[1, 0]` — the permutation is accepted, refuting
the claim. -/
theorem mkm_hasKey_permutation_counterexample :
    ((MultiKeyMap.emptyMap : MultiKeyMap Nat Nat).set [0, 1] 5).hasKey [1, 0] = true
      ∧ ((MultiKeyMap.emptyMap : MultiKeyMap Nat Nat).set [0, 1] 5).keys.contains [1, 0] = false := by
  decide

/-- C5 amended: `hasKey(keyParts)` returns false when `keyParts` is empty; for
non-empty `keyParts` it returns true iff some registered key-part sequence
contains every element of `keyParts` and has the same length — an
order-insensitive containment-plus-length match (so a permutation of a
registered sequence also returns true), not structural equality. -/
theorem mkm_hasKey_semantics {K V : Type} [DecidableEq K] [DecidableEq V]
    (m : MultiKeyMap K V) (ks : List K) (h : ks ≠ []) :
    m.hasKey [] = false ∧
      (m.hasKey ks = true ↔
        ∃ stored ∈ m.keys, (∀ k ∈ ks, k ∈ stored) ∧ stored.length = ks.length) := by
  have hemp : ks.isEmpty = false := by
    cases ks with
    | nil => exact absurd rfl h
    | cons a l => rfl
  refine ⟨rfl, ?_⟩
  unfold MultiKeyMap.hasKey
  rw [hemp]
  simpa [MultiKeyMap.keys] using MultiValueMap.hasValue_exact_iff m.keysMap ks h

/-- Witness for `mkm_hasKey_semantics` at the permutation input. -/
theorem mkm_hasKey_semantics_witness :
    ((MultiKeyMap.emptyMap : MultiKeyMap Nat Nat).set [0, 1] 5).hasKey [] = false ∧
      (((MultiKeyMap.emptyMap : MultiKeyMap Nat Nat).set [0, 1] 5).hasKey [1, 0] = true ↔
        ∃ stored ∈ ((MultiKeyMap.emptyMap : MultiKeyMap Nat Nat).set [0, 1] 5).keys,
          (∀ k ∈ ([1, 0] : List Nat), k ∈ stored) ∧ stored.length = ([1, 0] : List Nat).length) :=
  mkm_hasKey_semantics _ [1, 0] (by decide)

/-- C6 counterexample: with the single stored sequence `[0, 1]`,
`hasValue([0, 0], exact = true)` returns true although `[0, 0]` is not equal to
`[0, 1]` as a multiset, refuting the multiset-equality reading of the exact
match. -/
theorem mvm_hasValue_exact_counterexample :
    ((MultiValueMap.ofEntries [(1, [0, 1])] : MultiValueMap Nat Nat).hasValue [0, 0] true = true)
      ∧ (MultiValueMap.ofEntries [(1, [0, 1])] : MultiValueMap Nat Nat).values = [[0, 1]]
      ∧ ¬ ([0, 1] : List Nat).Perm [0, 0] :=
  ⟨by decide, by decide, by decide⟩

/-- C6 amended: `hasValue(candidate, exact)` returns false whenever the
candidate or the map is empty; with `exact = false` it returns true iff some
stored sequence contains every element of the candidate; with `exact = true` it
returns true iff some stored sequence contains every element of the candidate
and has length equal to the candidate's length — multiset equality is
sufficient but not necessary (a candidate with repeated elements can match a
stored sequence of the same length). -/
theorem mvm_hasValue_semantics {K V : Type} [DecidableEq K] [DecidableEq V]
    (m : MultiValueMap K V) (vs : List V) (ex : Bool) (h : vs ≠ []) :
    m.hasValue [] ex = false ∧
      (m.map = [] → m.hasValue vs ex = false) ∧
      (m.hasValue vs false = true ↔ ∃ arr ∈ m.values, ∀ v ∈ vs, v ∈ arr) ∧
      (m.hasValue vs true = true ↔
        ∃ arr ∈ m.values, (∀ v ∈ vs, v ∈ arr) ∧ arr.length = vs.length) := by
  refine ⟨rfl, ?_, MultiValueMap.hasValue_subset_iff m vs h,
    MultiValueMap.hasValue_exact_iff m vs h⟩
  intro hnil
  simp [MultiValueMap.hasValue, hnil]

/-- Witness for `mvm_hasValue_semantics` at a concrete map and candidate. -/
theorem mvm_hasValue_semantics_witness :
    (MultiValueMap.ofEntries [(1, [0, 1])] : MultiValueMap Nat Nat).hasValue [] true = false ∧
      ((MultiValueMap.ofEntries [(1, [0, 1])] : MultiValueMap Nat Nat).map = [] →
        (MultiValueMap.ofEntries [(1, [0, 1])] : MultiValueMap Nat Nat).hasValue [0, 0] true = false) ∧
      ((MultiValueMap.ofEntries [(1, [0, 1])] : MultiValueMap Nat Nat).hasValue [0, 0] false = true ↔
        ∃ arr ∈ (MultiValueMap.ofEntries [(1, [0, 1])] : MultiValueMap Nat Nat).values,
          ∀ v ∈ ([0, 0] : List Nat), v ∈ arr) ∧
      ((MultiValueMap.ofEntries [(1, [0, 1])] : MultiValueMap Nat Nat).hasValue [0, 0] true = true ↔
        ∃ arr ∈ (MultiValueMap.ofEntries [(1, [0, 1])] : MultiValueMap Nat Nat).values,
          (∀ v ∈ ([0, 0] : List Nat), v ∈ arr) ∧ arr.length = ([0, 0] : List Nat).length) :=
  mvm_hasValue_semantics _ [0, 0] true (by decide)

/-- C8: on both `MultiValueMap` and `MultiKeyMap`, `forEachBreakable` invokes
the callback exactly once per entry in insertion order, whatever booleans the
callback returns — a `false` return does not prevent the remaining invocations,
because it only exits the callback closure, not the enclosing iteration.  The
callback logs each invocation; the log ends up equal to the full entry list for
every choice of returned booleans (`f`, `g`), including constantly `false`. -/
theorem forEachBreakable_visits_all {K V A B : Type}
    [DecidableEq K] [DecidableEq V] [DecidableEq A] [DecidableEq B]
    (m : MultiValueMap K V) (f : List V → K → Bool)
    (mk : MultiKeyMap A B) (g : B → List A → Bool) :
    m.forEachBreakable (fun log vs k => (log ++ [(k, vs)], f vs k)) [] = m.entries
      ∧ mk.forEachBreakable (fun log v ks => (log ++ [(ks, v)], g v ks)) [] = mk.entries := by
  constructor
  · show List.foldl (fun st e => st ++ [((e.1 : K), (e.2 : List V))]) [] m.map = m.map
    rw [foldl_snoc (fun e => (e.1, e.2)) m.map []]
    simp
  · show List.foldl (fun st e => st ++ [((e.1 : List A), (e.2 : B))]) [] mk.entries = mk.entries
    rw [foldl_snoc (fun e => (e.1, e.2)) mk.entries []]
    simp

/-- Witness for `forEachBreakable_visits_all` with a constantly false callback
on concrete two-entry maps. -/
theorem forEachBreakable_visits_all_witness :
    (MultiValueMap.ofEntries [(1, [2]), (3, [4])] : MultiValueMap Nat Nat).forEachBreakable
        (fun log vs k => (log ++ [(k, vs)], false)) []
      = (MultiValueMap.ofEntries [(1, [2]), (3, [4])] : MultiValueMap Nat Nat).entries
    ∧ (MultiKeyMap.ofEntries [([1], 2), ([3], 4)] : MultiKeyMap Nat Nat).forEachBreakable
        (fun log v ks => (log ++ [(ks, v)], false)) []
      = (MultiKeyMap.ofEntries [([1], 2), ([3], 4)] : MultiKeyMap Nat Nat).entries :=
  forEachBreakable_visits_all _ (fun _ _ => false) _ (fun _ _ => false)

/-- C9: `MultiKeyMap.toString` renders each entry as the key parts joined by
"," inside square brackets, followed by ":" and the value, entries joined by
";" in insertion order; instantiated at Scenario D's two entries this is
exactly "[row1,col1]:LiLei;[row2,col2]:HanMeimei" (see the witness). -/
theorem mkm_toString_renders (ks1 ks2 : List String) (v1 v2 : String)
    (h1 : ks1 ≠ []) (h2 : ks2 ≠ []) (hne : ks2 ≠ ks1) :
    (MultiKeyMap.ofEntries [(ks1, v1), (ks2, v2)]).toString =
      "[" ++ joinSep "," ks1 ++ "]:" ++ v1 ++ ";" ++ ("[" ++ joinSep "," ks2 ++ "]:" ++ v2) := by
  have e1 : ks1.isEmpty = false := by
    cases ks1 with
    | nil => exact absurd rfl h1
    | cons a l => rfl
  have e2 : ks2.isEmpty = false := by
    cases ks2 with
    | nil => exact absurd rfl h2
    | cons a l => rfl
  have hne' : ¬ks1 = ks2 := fun hh => hne hh.symm
  simp [MultiKeyMap.ofEntries, MultiKeyMap.emptyMap, MultiKeyMap.set, e1, e2,
    h1, h2, MultiValueMap.set, objectHash, jsSet, hne', MultiKeyMap.toString,
    MultiKeyMap.entries, MultiValueMap.get, jsGet, joinSep]

/-- Witness for `mkm_toString_renders`: Scenario D's exact rendering. -/
theorem mkm_toString_renders_witness :
    (MultiKeyMap.ofEntries
        [(["row1", "col1"], "LiLei"), (["row2", "col2"], "HanMeimei")]).toString
      = "[row1,col1]:LiLei;[row2,col2]:HanMeimei" :=
  (mkm_toString_renders ["row1", "col1"] ["row2", "col2"] "LiLei" "HanMeimei"
      (by decide) (by decide) (by decide)).trans (by decide)

/-- C10 counterexample: under the spec's words for the (source-absent)
`MultiValueMap.hasAllValues` — the all-fold of `hasValue(..., exact=true)` over
the candidate sequences — a call with zero arguments is vacuously true, also on
a non-empty map, refuting the claim that `hasAllValues()` returns false on
`MultiValueMap`. -/
theorem mvm_hasAllValues_vacuous_counterexample :
    (MultiValueMap.ofEntries [(1, [2])] : MultiValueMap Nat Nat).hasAllValues [] = true := by
  decide

/-- C10 amended: the six variadic any/all predicates implemented in the sources
(`hasAnyKeys`/`hasAllKeys` on `MultiValueMap`, all four on `MultiKeyMap`)
return false with zero arguments and false on an empty map whatever the
arguments; the spec-modelled `MultiValueMap.hasAnyValues` also returns false
with zero arguments and on an empty map; the spec-modelled
`MultiValueMap.hasAllValues` is vacuously true with zero arguments and false on
an empty map for any non-empty argument list. -/
theorem anyAll_zero_args_empty_map {K V : Type} [DecidableEq K] [DecidableEq V]
    (m : MultiValueMap K V) (mk : MultiKeyMap K V)
    (ks : List K) (vss : List (List V)) (kss : List (List K)) (vs : List V) :
    m.hasAnyKeys [] = false ∧ m.hasAllKeys [] = false ∧
      m.hasAnyValues [] = false ∧ m.hasAllValues [] = true ∧
      mk.hasAnyKeys [] = false ∧ mk.hasAllKeys [] = false ∧
      mk.hasAnyValues [] = false ∧ mk.hasAllValues [] = false ∧
      (MultiValueMap.mk [] : MultiValueMap K V).hasAnyKeys ks = false ∧
      (MultiValueMap.mk [] : MultiValueMap K V).hasAllKeys ks = false ∧
      (MultiValueMap.mk [] : MultiValueMap K V).hasAnyValues vss = false ∧
      (vss ≠ [] → (MultiValueMap.mk [] : MultiValueMap K V).hasAllValues vss = false) ∧
      (MultiKeyMap.emptyMap : MultiKeyMap K V).hasAnyKeys kss = false ∧
      (MultiKeyMap.emptyMap : MultiKeyMap K V).hasAllKeys kss = false ∧
      (MultiKeyMap.emptyMap : MultiKeyMap K V).hasAnyValues vs = false ∧
      (MultiKeyMap.emptyMap : MultiKeyMap K V).hasAllValues vs = false := by
  refine ⟨rfl, rfl, rfl, rfl, rfl, rfl, rfl, rfl, ?_, ?_, ?_, ?_, ?_, ?_, ?_, ?_⟩
  · simp [MultiValueMap.hasAnyKeys]
  · simp [MultiValueMap.hasAllKeys]
  · simp [MultiValueMap.hasAnyValues, MultiValueMap.hasValue]
  · intro hne
    obtain ⟨vs0, rest, rfl⟩ := List.exists_cons_of_ne_nil hne
    simp [MultiValueMap.hasAllValues, MultiValueMap.hasValue]
  · simp [MultiKeyMap.hasAnyKeys, MultiKeyMap.emptyMap]
  · simp [MultiKeyMap.hasAllKeys, MultiKeyMap.emptyMap]
  · simp [MultiKeyMap.hasAnyValues, MultiKeyMap.emptyMap]
  · simp [MultiKeyMap.hasAllValues, MultiKeyMap.emptyMap]

/-- Witness for `anyAll_zero_args_empty_map` at concrete maps and arguments. -/
theorem anyAll_zero_args_empty_map_witness :
    (MultiValueMap.ofEntries [(1, [2])] : MultiValueMap Nat Nat).hasAnyKeys [] = false ∧
      (MultiValueMap.ofEntries [(1, [2])] : MultiValueMap Nat Nat).hasAllKeys [] = false ∧
      (MultiValueMap.ofEntries [(1, [2])] : MultiValueMap Nat Nat).hasAnyValues [] = false ∧
      (MultiValueMap.ofEntries [(1, [2])] : MultiValueMap Nat Nat).hasAllValues [] = true ∧
      (MultiKeyMap.ofEntries [([1], 2)] : MultiKeyMap Nat Nat).hasAnyKeys [] = false ∧
      (MultiKeyMap.ofEntries [([1], 2)] : MultiKeyMap Nat Nat).hasAllKeys [] = false ∧
      (MultiKeyMap.ofEntries [([1], 2)] : MultiKeyMap Nat Nat).hasAnyValues [] = false ∧
      (MultiKeyMap.ofEntries [([1], 2)] : MultiKeyMap Nat Nat).hasAllValues [] = false ∧
      (MultiValueMap.mk [] : MultiValueMap Nat Nat).hasAnyKeys [3] = false ∧
      (MultiValueMap.mk [] : MultiValueMap Nat Nat).hasAllKeys [3] = false ∧
      (MultiValueMap.mk [] : MultiValueMap Nat Nat).hasAnyValues [[4]] = false ∧
      (MultiValueMap.mk [] : MultiValueMap Nat Nat).hasAllValues [[4]] = false ∧
      (MultiKeyMap.emptyMap : MultiKeyMap Nat Nat).hasAnyKeys [[3]] = false ∧
      (MultiKeyMap.emptyMap : MultiKeyMap Nat Nat).hasAllKeys [[3]] = false ∧
      (MultiKeyMap.emptyMap : MultiKeyMap Nat Nat).hasAnyValues [4] = false ∧
      (MultiKeyMap.emptyMap : MultiKeyMap Nat Nat).hasAllValues [4] = false := by
  obtain ⟨h1, h2, h3, h4, h5, h6, h7, h8, h9, h10, h11, h12, h13, h14, h15, h16⟩ :=
    anyAll_zero_args_empty_map (MultiValueMap.ofEntries [(1, [2])])
      (MultiKeyMap.ofEntries [([1], 2)]) [3] [[4]] [[3]] [4]
  exact ⟨h1, h2, h3, h4, h5, h6, h7, h8, h9, h10, h11, h12 (by decide),
    h13, h14, h15, h16⟩
